import Mathlib

/-!
Shallow embedding of the face-matching subsystem of src/utils.py:
the SQLite-backed known-face registry (load_known_faces, add_known_face)
and the per-image recognition routine (recognize_face).  The external
face_recognition collaborator is modelled by its documented contract: a
per-entry distance list (face_distance) and a boolean is-match test at a
fixed acceptance radius (compare_faces); numpy.argmin is modelled by its
contract of returning the index of the first occurrence of the minimum.
Mutable state (the caller's image buffer and the SQLite database) is
threaded explicitly; Python exceptions are modelled with Except/Option.
-/

namespace FaceApp

/-- A face embedding: a fixed-length vector of float64 components,
modelled as a list of rationals. -/
abbrev Emb := List ℚ

/-- A row of the known_faces table created by initialize_database
(columns name, encoding, image_path, created_at). -/
structure KnownFace where
  name : String
  encoding : Emb
  image_path : String
  created_at : ℕ
deriving Repr, DecidableEq

/-- A row of the recognition_history table created by
initialize_database (columns name, confidence, timestamp). -/
structure HistoryRecord where
  name : String
  confidence : ℚ
  timestamp : ℕ
deriving Repr, DecidableEq

/-- The persisted state of database.db: the two tables, each in rowid
(insertion) order. -/
structure DB where
  known_faces : List KnownFace
  recognition_history : List HistoryRecord
deriving Repr, DecidableEq

/-- src/utils.py load_known_faces: SELECT name, encoding FROM
known_faces, returning (encodings, names) in row order.  The call only
reads, so the database component of the result equals the input. -/
def load_known_faces (db : DB) : (List Emb × List String) × DB :=
  ((db.known_faces.map (fun r => r.encoding),
    db.known_faces.map (fun r => r.name)), db)

/-- src/utils.py add_known_face: the Encoder output on the registration
image (face_recognition.face_encodings, an external collaborator) is
passed in as `encodings`.  When no face was found the function raises
ValueError "No face found in the image" before touching the database;
otherwise it inserts the first encoding.  The result pairs the raised
error (if any) with the database state after the call. -/
def add_known_face (encodings : List Emb) (image_path name : String)
    (now : ℕ) (db : DB) : Except String Unit × DB :=
  match encodings with
  | [] => (.error "No face found in the image", db)
  | e :: _ =>
      (.ok (),
       { db with known_faces := db.known_faces ++ [⟨name, e, image_path, now⟩] })

/-- face_recognition.face_distance: the distance from each known
encoding to the probe, in registry order.  The metric itself is internal
to the external library and is passed in as `d`. -/
def face_distance (d : Emb → Emb → ℚ) (known : List Emb) (probe : Emb) :
    List ℚ :=
  known.map (fun e => d e probe)

/-- Modelled from the spec: the Encoder collaborator's pairwise boolean
is-match test (distance below a model-internal acceptance radius `tol`),
applied by face_recognition.compare_faces to every known encoding. -/
def compare_faces (d : Emb → Emb → ℚ) (tol : ℚ) (known : List Emb)
    (probe : Emb) : List Bool :=
  known.map (fun e => decide (d e probe ≤ tol))

/-- numpy.argmin on a list: the index of the minimum value, taking the
first occurrence when the minimum is attained more than once (numpy's
documented tie rule).  The source only applies it to non-empty lists. -/
def np_argmin : List ℚ → ℕ
  | [] => 0
  | [_] => 0
  | v :: w :: rest =>
      if (w :: rest).getD (np_argmin (w :: rest)) 0 < v then
        np_argmin (w :: rest) + 1
      else 0

/-- The per-probe match result of recognize_face: the recognized name
and its confidence score. -/
structure MatchResult where
  name : String
  confidence : ℚ
deriving Repr, DecidableEq

/-- The runtime error recognize_face can raise inside its per-face
loop: Python list indexing known_face_names[best_match_index] raises
IndexError when the names sequence is shorter than the encodings. -/
inductive PyErr
  | indexError
deriving Repr, DecidableEq

/-- The per-face matching logic of recognize_face (src/utils.py lines
84-93): compare_faces against the registry, default "Unknown"/0.0, then
if any distances exist take numpy.argmin and accept exactly when the
boolean match at that index holds, with confidence 1 - distance.
matches and face_distances both have the registry's length, so indexing
them at best_match_index cannot fail; known_face_names is indexed
fallibly, as in Python. -/
def recognize_one (d : Emb → Emb → ℚ) (tol : ℚ) (known : List Emb)
    (names : List String) (probe : Emb) : Except PyErr MatchResult :=
  let matchFlags := compare_faces d tol known probe
  let face_distances := face_distance d known probe
  if 0 < face_distances.length then
    let best_match_index := np_argmin face_distances
    if matchFlags.getD best_match_index false then
      match names[best_match_index]? with
      | some n => .ok ⟨n, 1 - face_distances.getD best_match_index 0⟩
      | none => .error .indexError
    else .ok ⟨"Unknown", 0⟩
  else .ok ⟨"Unknown", 0⟩

/-- The value recognize_one returns when the registry's two sequences
are aligned (so its fallible name lookup cannot fail); used to state
the loop-level theorems. -/
def matchOf (d : Emb → Emb → ℚ) (tol : ℚ) (known : List Emb)
    (names : List String) (probe : Emb) : MatchResult :=
  let face_distances := face_distance d known probe
  if 0 < face_distances.length then
    let best_match_index := np_argmin face_distances
    if (compare_faces d tol known probe).getD best_match_index false then
      ⟨names.getD best_match_index "Unknown",
       1 - face_distances.getD best_match_index 0⟩
    else ⟨"Unknown", 0⟩
  else ⟨"Unknown", 0⟩

/-- A drawing command applied to an image buffer: cv2.rectangle over a
face region, or cv2.putText of the label built from a name and a
confidence at a given position. -/
inductive DrawCmd
  | rect (left top right bottom : ℤ)
  | text (name : String) (confidence : ℚ) (left top : ℤ)
deriving Repr, DecidableEq

/-- An image buffer, modelled as the list of drawing commands applied
to it so far (cv2.rectangle and cv2.putText mutate the buffer by
appending their effect). -/
abbrev Image := List DrawCmd

/-- A detected face as returned by the Encoder collaborator
(face_recognition.face_locations and face_encodings): the bounding
region (top, right, bottom, left) and the embedding. -/
structure Face where
  top : ℤ
  right : ℤ
  bottom : ℤ
  left : ℤ
  encoding : Emb
deriving Repr, DecidableEq

/-- The two drawing commands recognize_face issues per face:
cv2.rectangle of the region, then cv2.putText of the name/confidence
label at (left, top - 10). -/
def annotCmds (f : Face) (r : MatchResult) : List DrawCmd :=
  [DrawCmd.rect f.left f.top f.right f.bottom,
   DrawCmd.text r.name r.confidence f.left (f.top - 10)]

/-- The per-face loop of recognize_face (src/utils.py lines 83-106),
rendered as structural recursion over the detected faces.  It returns
the possibly-raised error, the drawing commands appended to the image,
the recognized_names and confidences accumulators, and the history rows
passed to the (still uncommitted) INSERTs.  An IndexError at a face
stops the loop before that face's own effects, keeping the image
effects of the completed iterations, exactly as the Python loop does. -/
def recognize_loop (d : Emb → Emb → ℚ) (tol : ℚ) (known : List Emb)
    (names : List String) (now : ℕ) :
    List Face → Option PyErr × Image × List String × List ℚ × List HistoryRecord
  | [] => (none, [], [], [], [])
  | f :: rest =>
      match recognize_one d tol known names f.encoding with
      | .error e => (some e, [], [], [], [])
      | .ok r =>
          let out := recognize_loop d tol known names now rest
          (out.1, annotCmds f r ++ out.2.1, r.name :: out.2.2.1,
           r.confidence :: out.2.2.2.1,
           ⟨r.name, r.confidence, now⟩ :: out.2.2.2.2)

/-- src/utils.py recognize_face: `faces` is the Encoder collaborator's
detection output on the input image.  The routine draws in place on the
caller's image buffer, buffers one history INSERT per face, and commits
them in one transaction after the loop; if the loop raises, the commit
never runs and the connection's pending INSERTs are discarded.  The
result is the Python return value (or the propagated error), the
caller's image buffer after the call (the returned image is that same
mutated buffer, not a copy), and the database after the call. -/
def recognize_face (d : Emb → Emb → ℚ) (tol : ℚ) (faces : List Face)
    (image : Image) (known : List Emb) (names : List String) (now : ℕ)
    (db : DB) : Except PyErr (Image × List String × List ℚ) × Image × DB :=
  let out := recognize_loop d tol known names now faces
  match out.1 with
  | some e => (.error e, image ++ out.2.1, db)
  | none =>
      (.ok (image ++ out.2.1, out.2.2.1, out.2.2.2.1),
       image ++ out.2.1,
       { db with recognition_history :=
           db.recognition_history ++ out.2.2.2.2 })

/-- Modelled from the spec: the two-stage accept condition of §4.2 (the
Matcher), written from the spec's words for comparison with the
source's recognize_one — a named match requires the encoder is-match
test at the minimum-distance index AND that the minimum distance
satisfies the caller-supplied threshold. -/
def match_spec (d : Emb → Emb → ℚ) (tol : ℚ) (known : List Emb)
    (names : List String) (probe : Emb) (threshold : ℚ) : MatchResult :=
  let face_distances := face_distance d known probe
  if 0 < face_distances.length then
    let best_match_index := np_argmin face_distances
    if (compare_faces d tol known probe).getD best_match_index false
        ∧ face_distances.getD best_match_index 0 ≤ threshold then
      ⟨names.getD best_match_index "Unknown",
       1 - face_distances.getD best_match_index 0⟩
    else ⟨"Unknown", 0⟩
  else ⟨"Unknown", 0⟩

/-- The Match Results of all faces of one call, in detection order. -/
def resultsOf (d : Emb → Emb → ℚ) (tol : ℚ) (known : List Emb)
    (names : List String) (faces : List Face) : List MatchResult :=
  faces.map (fun f => matchOf d tol known names f.encoding)

/-- The history rows recognize_face appends for one call, one per
detected face in detection order. -/
def recordsOf (d : Emb → Emb → ℚ) (tol : ℚ) (known : List Emb)
    (names : List String) (now : ℕ) (faces : List Face) :
    List HistoryRecord :=
  (resultsOf d tol known names faces).map
    (fun r => ⟨r.name, r.confidence, now⟩)

/-- The drawing commands recognize_face appends to the caller's image
buffer for one call, two per detected face in detection order. -/
def annotationsOf (d : Emb → Emb → ℚ) (tol : ℚ) (known : List Emb)
    (names : List String) (faces : List Face) : Image :=
  (faces.map (fun f => annotCmds f (matchOf d tol known names f.encoding))).flatten

/-- The observable matcher outcome of one recognize_face call: the
recognized names and confidences (or the propagated error), without the
annotated image or database components. -/
def matchOutcome
    (out : Except PyErr (Image × List String × List ℚ) × Image × DB) :
    Except PyErr (List String × List ℚ) :=
  out.1.map (fun t => (t.2.1, t.2.2))

/-- A concrete distance function for witnesses: L1 distance on
embedding vectors. -/
def qdist (a b : Emb) : ℚ :=
  (List.zipWith (fun x y => if x ≤ y then y - x else x - y) a b).sum

/-- A concrete detected face used by the witnesses. -/
def wFace : Face := ⟨0, 10, 10, 0, [0]⟩

/-- A concrete empty database used by the witnesses. -/
def wDB : DB := ⟨[], []⟩

/-! Helper lemmas about list indexing and the embedded collaborators. -/

theorem getElem?_of_lt {α : Type} (l : List α) (n : ℕ) (dflt : α)
    (h : n < l.length) : l[n]? = some (l.getD n dflt) := by
  induction l generalizing n with
  | nil => simp at h
  | cons a t ih =>
      cases n with
      | zero => simp
      | succ m => simpa using ih m (by simpa using h)

theorem getD_mem_of_lt {α : Type} (l : List α) (n : ℕ) (dflt : α)
    (h : n < l.length) : l.getD n dflt ∈ l := by
  induction l generalizing n with
  | nil => simp at h
  | cons a t ih =>
      cases n with
      | zero => simp
      | succ m => simpa using Or.inr (ih m (by simpa using h))

theorem face_distance_length (d : Emb → Emb → ℚ) (known : List Emb)
    (probe : Emb) : (face_distance d known probe).length = known.length := by
  simp [face_distance]

theorem face_distance_getD (d : Emb → Emb → ℚ) (known : List Emb)
    (probe : Emb) (k : ℕ) (h : k < known.length) :
    (face_distance d known probe).getD k 0 = d (known.getD k []) probe := by
  induction known generalizing k with
  | nil => simp at h
  | cons a t ih =>
      cases k with
      | zero => simp [face_distance]
      | succ m =>
          simpa [face_distance] using ih m (by simpa using h)

theorem compare_faces_getD (d : Emb → Emb → ℚ) (tol : ℚ) (known : List Emb)
    (probe : Emb) (k : ℕ) (h : k < known.length) :
    (compare_faces d tol known probe).getD k false
      = decide (d (known.getD k []) probe ≤ tol) := by
  induction known generalizing k with
  | nil => simp at h
  | cons a t ih =>
      cases k with
      | zero => simp [compare_faces]
      | succ m =>
          simpa [compare_faces] using ih m (by simpa using h)

/-! Characterization of np_argmin: in-range, minimizing, and first
occurrence (every strictly earlier index holds a strictly larger
value). -/

theorem np_argmin_lt_length (l : List ℚ) (h : l ≠ []) :
    np_argmin l < l.length := by
  induction l with
  | nil => exact absurd rfl h
  | cons v t ih =>
      cases t with
      | nil => simp [np_argmin]
      | cons w rest =>
          have hr := ih (by simp)
          by_cases hc : (w :: rest).getD (np_argmin (w :: rest)) 0 < v
          · rw [np_argmin, if_pos hc]
            exact Nat.succ_lt_succ hr
          · rw [np_argmin, if_neg hc]
            exact Nat.succ_pos _

theorem np_argmin_min (l : List ℚ) (k : ℕ) (hk : k < l.length) :
    l.getD (np_argmin l) 0 ≤ l.getD k 0 := by
  induction l generalizing k with
  | nil => simp at hk
  | cons v t ih =>
      cases t with
      | nil =>
          cases k with
          | zero => simp [np_argmin]
          | succ m => simp at hk
      | cons w rest =>
          by_cases hc : (w :: rest).getD (np_argmin (w :: rest)) 0 < v
          · rw [np_argmin, if_pos hc]
            cases k with
            | zero => simpa using le_of_lt hc
            | succ m =>
                simpa using ih m (by simpa using hk)
          · rw [np_argmin, if_neg hc]
            cases k with
            | zero => simp
            | succ m =>
                have hm := ih m (by simpa using hk)
                have hv := not_lt.mp hc
                simpa using le_trans hv hm

theorem np_argmin_first (l : List ℚ) (k : ℕ) (hk : k < np_argmin l) :
    l.getD (np_argmin l) 0 < l.getD k 0 := by
  induction l generalizing k with
  | nil => simp [np_argmin] at hk
  | cons v t ih =>
      cases t with
      | nil => simp [np_argmin] at hk
      | cons w rest =>
          by_cases hc : (w :: rest).getD (np_argmin (w :: rest)) 0 < v
          · rw [np_argmin, if_pos hc] at hk ⊢
            cases k with
            | zero => simpa using hc
            | succ m =>
                simpa using ih m (Nat.lt_of_succ_lt_succ hk)
          · rw [np_argmin, if_neg hc] at hk
            exact absurd hk (Nat.not_lt_zero k)

/-! Lemmas about recognize_one and the per-face loop. -/

theorem recognize_one_eq_ok (d : Emb → Emb → ℚ) (tol : ℚ) (known : List Emb)
    (names : List String) (probe : Emb) (hlen : names.length = known.length) :
    recognize_one d tol known names probe
      = .ok (matchOf d tol known names probe) := by
  simp only [recognize_one, matchOf]
  by_cases h : 0 < (face_distance d known probe).length
  · simp only [if_pos h]
    by_cases hm : (compare_faces d tol known probe)[np_argmin
        (face_distance d known probe)]?.getD false = true
    · have hne : face_distance d known probe ≠ [] := by
        intro hnil
        rw [hnil] at h
        simp at h
      have hb : np_argmin (face_distance d known probe) < names.length := by
        rw [hlen, ← face_distance_length d known probe]
        exact np_argmin_lt_length _ hne
      rw [getElem?_of_lt names _ "Unknown" hb]
      simp [hm]
    · simp [hm]
  · simp [if_neg h]

theorem recognize_loop_ok (d : Emb → Emb → ℚ) (tol : ℚ) (known : List Emb)
    (names : List String) (now : ℕ) (faces : List Face)
    (hlen : names.length = known.length) :
    recognize_loop d tol known names now faces =
      (none, annotationsOf d tol known names faces,
       (resultsOf d tol known names faces).map MatchResult.name,
       (resultsOf d tol known names faces).map MatchResult.confidence,
       recordsOf d tol known names now faces) := by
  induction faces with
  | nil => simp [recognize_loop, annotationsOf, resultsOf, recordsOf]
  | cons f rest ih =>
      simp [recognize_loop, recognize_one_eq_ok d tol known names f.encoding hlen,
            ih, annotationsOf, resultsOf, recordsOf]

theorem recognize_loop_parts (d : Emb → Emb → ℚ) (tol : ℚ) (known : List Emb)
    (names : List String) (now now' : ℕ) (faces : List Face) :
    (recognize_loop d tol known names now faces).1
        = (recognize_loop d tol known names now' faces).1
    ∧ (recognize_loop d tol known names now faces).2.1
        = (recognize_loop d tol known names now' faces).2.1
    ∧ (recognize_loop d tol known names now faces).2.2.1
        = (recognize_loop d tol known names now' faces).2.2.1
    ∧ (recognize_loop d tol known names now faces).2.2.2.1
        = (recognize_loop d tol known names now' faces).2.2.2.1 := by
  induction faces with
  | nil => simp [recognize_loop]
  | cons f rest ih =>
      cases h : recognize_one d tol known names f.encoding with
      | error e => simp [recognize_loop, h]
      | ok r =>
          obtain ⟨h1, h2, h3, h4⟩ := ih
          simp [recognize_loop, h, h1, h2, h3, h4]

/-- Inversion for recognize_one: a successful match result is either
the rejected unknown sentinel (empty store, or the boolean match flag
false at the minimum-distance index) or the accepted named result with
confidence 1 minus the minimum distance. -/
theorem recognize_one_ok_cases (d : Emb → Emb → ℚ) (tol : ℚ)
    (known : List Emb) (names : List String) (probe : Emb) (r : MatchResult)
    (hok : recognize_one d tol known names probe = .ok r) :
    (r.confidence = 0 ∧ r.name = "Unknown"
      ∧ (known = []
         ∨ (compare_faces d tol known probe).getD
             (np_argmin (face_distance d known probe)) false = false))
    ∨ ((compare_faces d tol known probe).getD
          (np_argmin (face_distance d known probe)) false = true
       ∧ known ≠ []
       ∧ r.confidence = 1 - (face_distance d known probe).getD
           (np_argmin (face_distance d known probe)) 0) := by
  obtain ⟨rn, rc⟩ := r
  simp only [recognize_one] at hok
  by_cases hpos : 0 < (face_distance d known probe).length
  · rw [if_pos hpos] at hok
    by_cases hb : (compare_faces d tol known probe).getD
        (np_argmin (face_distance d known probe)) false = true
    · right
      refine ⟨hb, ?_, ?_⟩
      · intro h
        subst h
        simp [face_distance] at hpos
      · rw [hb] at hok
        simp only [if_true] at hok
        cases hn : names[np_argmin (face_distance d known probe)]? with
        | none =>
            rw [hn] at hok
            simp at hok
        | some n =>
            rw [hn] at hok
            simp only [Except.ok.injEq, MatchResult.mk.injEq] at hok
            exact hok.2.symm
    · left
      have hb2 : (compare_faces d tol known probe).getD
          (np_argmin (face_distance d known probe)) false = false := by
        simpa using hb
      rw [hb2] at hok
      simp only [Bool.false_eq_true, if_false, Except.ok.injEq,
        MatchResult.mk.injEq] at hok
      exact ⟨hok.2.symm, hok.1.symm, Or.inr hb2⟩
  · rw [if_neg hpos] at hok
    simp only [Except.ok.injEq, MatchResult.mk.injEq] at hok
    left
    refine ⟨hok.2.symm, hok.1.symm, Or.inl ?_⟩
    by_contra hne
    exact hpos (by
      rw [face_distance_length]
      exact List.length_pos.mpr hne)

/-! Claim theorems. -/

/-- C1 (counterexample): the claim's two-stage accept condition fails on
the code.  With one registered entry at distance 11/20 from the probe
(inside the acceptance radius 3/5 but above the caller threshold 9/20),
recognize_face still returns the named identity with confidence 9/20,
while the spec's matcher returns the unknown sentinel — the code never
consults a caller-supplied threshold. -/
theorem recognize_ignores_threshold_counterexample :
    recognize_one qdist (3/5) [[(0:ℚ)]] ["alice"] [(11:ℚ)/20]
        = .ok ⟨"alice", 9/20⟩
    ∧ match_spec qdist (3/5) [[(0:ℚ)]] ["alice"] [(11:ℚ)/20] (9/20)
        = ⟨"Unknown", 0⟩
    ∧ ¬ ((11:ℚ)/20 ≤ 9/20) := by
  refine ⟨?_, ?_, by norm_num⟩
  · norm_num [recognize_one, compare_faces, face_distance, np_argmin, qdist]
  · norm_num [match_spec, compare_faces, face_distance, np_argmin, qdist]

/-- C1 (amended): on an aligned non-empty store, the matcher accepts a
named match exactly when the encoder's boolean is-match test passes for
the minimum-distance entry; no caller-supplied threshold is consulted.
When accepted the result is the identity at the minimum-distance index
with confidence 1 - min_distance, otherwise the unknown sentinel with
confidence 0.0. -/
theorem recognize_accepts_iff_encoder_match (d : Emb → Emb → ℚ) (tol : ℚ)
    (known : List Emb) (names : List String) (probe : Emb)
    (hlen : names.length = known.length) (hne : known ≠ []) :
    recognize_one d tol known names probe =
      .ok (if d (known.getD (np_argmin (face_distance d known probe)) [])
              probe ≤ tol then
             ⟨names.getD (np_argmin (face_distance d known probe)) "Unknown",
              1 - (face_distance d known probe).getD
                    (np_argmin (face_distance d known probe)) 0⟩
           else ⟨"Unknown", 0⟩) := by
  have hpos : 0 < (face_distance d known probe).length := by
    rw [face_distance_length]
    exact List.length_pos.mpr hne
  have hlt : np_argmin (face_distance d known probe) < known.length := by
    rw [← face_distance_length d known probe]
    exact np_argmin_lt_length _ (List.ne_nil_of_length_pos hpos)
  have hcf := compare_faces_getD d tol known probe _ hlt
  rw [recognize_one_eq_ok d tol known names probe hlen]
  simp only [matchOf]
  rw [if_pos hpos]
  by_cases hP : d (known.getD (np_argmin (face_distance d known probe)) [])
      probe ≤ tol
  all_goals
    simp only [List.getD_eq_getElem?_getD] at hcf hP ⊢
    simp [hcf, hP]

/-- C1 (witness): at a concrete aligned store the amended theorem
evaluates to the accepted named match. -/
theorem recognize_accepts_iff_encoder_match_witness :
    (["alice"] : List String).length = ([[(0:ℚ)]] : List Emb).length
    ∧ recognize_one qdist (3/5) [[(0:ℚ)]] ["alice"] [(1:ℚ)/2]
        = .ok ⟨"alice", 1/2⟩ := by
  refine ⟨rfl, ?_⟩
  rw [recognize_accepts_iff_encoder_match qdist (3/5) [[(0:ℚ)]] ["alice"]
    [(1:ℚ)/2] rfl (by simp)]
  norm_num [qdist, face_distance, np_argmin]

/-- C2 (counterexample): recognition does not leave the caller's input
image unchanged — on an empty store with one detected face, the
caller's image buffer after the call holds the drawn rectangle and
label, so the drawing did not happen on a copy. -/
theorem recognize_mutates_input_image :
    (recognize_face qdist (3/5) [wFace] [] [] [] 0 wDB).2.1
      ≠ ([] : Image) := by
  intro hEq
  norm_num [recognize_face, recognize_loop, recognize_one, compare_faces,
    face_distance, np_argmin, qdist, wFace, wDB, annotCmds] at hEq
  exact List.cons_ne_nil _ _ hEq

/-- C2 (amended): recognize_face draws the face regions and labels
directly onto the caller's input image (no copy): after a successful
call the caller's image buffer equals the input followed by one
rectangle and one label per detected face, and the returned annotated
image is that same mutated buffer. -/
theorem recognize_draws_on_input_in_place (d : Emb → Emb → ℚ) (tol : ℚ)
    (faces : List Face) (image : Image) (known : List Emb)
    (names : List String) (now : ℕ) (db : DB)
    (hlen : names.length = known.length) :
    (recognize_face d tol faces image known names now db).2.1
        = image ++ annotationsOf d tol known names faces
    ∧ (recognize_face d tol faces image known names now db).1
        = .ok (image ++ annotationsOf d tol known names faces,
               (resultsOf d tol known names faces).map MatchResult.name,
               (resultsOf d tol known names faces).map MatchResult.confidence) := by
  simp [recognize_face, recognize_loop_ok d tol known names now faces hlen]

/-- C2 (witness): the amended theorem at a concrete store, face and
empty input image. -/
theorem recognize_draws_on_input_in_place_witness :
    (["alice"] : List String).length = ([[(0:ℚ)]] : List Emb).length
    ∧ (recognize_face qdist (3/5) [wFace] [] [[(0:ℚ)]] ["alice"] 0 wDB).2.1
        = [] ++ annotationsOf qdist (3/5) [[(0:ℚ)]] ["alice"] [wFace] :=
  ⟨rfl, (recognize_draws_on_input_in_place qdist (3/5) [wFace] []
    [[(0:ℚ)]] ["alice"] 0 wDB rfl).1⟩

/-- C3: for every probe embedding, distance metric, acceptance radius
and (unused, since the code consults none) threshold, matching against
the empty store returns the unknown sentinel with confidence exactly
0.0. -/
theorem recognize_empty_store (d : Emb → Emb → ℚ) (tol : ℚ) (probe : Emb)
    (_threshold : ℚ) :
    recognize_one d tol [] [] probe = .ok ⟨"Unknown", 0⟩ := rfl

/-- C6: add_known_face on an image in which the encoder detected zero
faces raises the no-face error and leaves the persisted store
unchanged — no partial entry is written. -/
theorem add_no_face (image_path name : String) (now : ℕ) (db : DB) :
    add_known_face [] image_path name now db
      = (.error "No face found in the image", db) := rfl

/-- C8: load_known_faces only reads; calling it twice with no
intervening add yields the identical (embeddings, identities) pair,
value-equal and order-equal, and leaves the database untouched. -/
theorem load_idempotent (db : DB) :
    (load_known_faces ((load_known_faces db).2)).1 = (load_known_faces db).1
    ∧ (load_known_faces db).2 = db :=
  ⟨rfl, rfl⟩

/-- C4: when two reference entries sit at the equal minimum distance
from the probe and the earlier of the two is the first occurrence of
that minimum, the matcher's selected index (numpy.argmin over the
distance list) is exactly that lower insertion index. -/
theorem matcher_tiebreak (d : Emb → Emb → ℚ) (known : List Emb)
    (probe : Emb) (i j : ℕ) (hij : i < j) (hj : j < known.length)
    (heq : d (known.getD i []) probe = d (known.getD j []) probe)
    (hmin : ∀ k, k < known.length →
      d (known.getD i []) probe ≤ d (known.getD k []) probe)
    (hfirst : ∀ k, k < i →
      d (known.getD i []) probe < d (known.getD k []) probe) :
    np_argmin (face_distance d known probe) = i := by
  have hi : i < known.length := lt_trans hij hj
  have hlen := face_distance_length d known probe
  have hpos : 0 < (face_distance d known probe).length := by
    rw [hlen]
    omega
  have hb : np_argmin (face_distance d known probe) < known.length := by
    rw [← hlen]
    exact np_argmin_lt_length _ (List.ne_nil_of_length_pos hpos)
  rcases Nat.lt_trichotomy (np_argmin (face_distance d known probe)) i
    with h | h | h
  · have h1 := np_argmin_min (face_distance d known probe) i
      (by rw [hlen]; exact hi)
    rw [face_distance_getD d known probe _ hb,
      face_distance_getD d known probe i hi] at h1
    exact absurd h1 (not_le.mpr (hfirst _ h))
  · exact h
  · have h1 := np_argmin_first (face_distance d known probe) i h
    rw [face_distance_getD d known probe _ hb,
      face_distance_getD d known probe i hi] at h1
    exact absurd h1 (not_lt.mpr (hmin _ hb))

/-- C4 (witness): a registry with entries at distances 3, 1, 1 from the
probe has its two tied minima at indices 1 and 2, and the matcher
selects index 1. -/
theorem matcher_tiebreak_witness :
    ((1:ℕ) < 2 ∧ (2:ℕ) < ([[(3:ℚ)], [1], [1]] : List Emb).length)
    ∧ np_argmin (face_distance qdist [[(3:ℚ)], [1], [1]] [0]) = 1 := by
  refine ⟨⟨by norm_num, by simp⟩, ?_⟩
  refine matcher_tiebreak qdist [[(3:ℚ)], [1], [1]] [0] 1 2 (by norm_num)
    (by simp) (by norm_num [qdist]) ?_ ?_
  · intro k hk
    simp at hk
    interval_cases k <;> norm_num [qdist]
  · intro k hk
    interval_cases k
    norm_num [qdist]

/-- C5: every Match Result the matcher produces has confidence inside
[0, 1] (given that the collaborator's distances are nonnegative and its
acceptance radius is at most 1): the confidence equals 1 minus the
minimum distance when the match is accepted, and is exactly 0 when the
store is empty or the minimum-distance entry fails the acceptance
test. -/
theorem confidence_in_unit_interval (d : Emb → Emb → ℚ) (tol : ℚ)
    (known : List Emb) (names : List String) (probe : Emb) (r : MatchResult)
    (hd : ∀ e ∈ known, 0 ≤ d e probe) (htol : tol ≤ 1)
    (hok : recognize_one d tol known names probe = .ok r) :
    (0 ≤ r.confidence ∧ r.confidence ≤ 1)
    ∧ ((known ≠ []
        ∧ d (known.getD (np_argmin (face_distance d known probe)) [])
            probe ≤ tol)
        → r.confidence = 1 - (face_distance d known probe).getD
            (np_argmin (face_distance d known probe)) 0)
    ∧ ((known = []
        ∨ ¬ d (known.getD (np_argmin (face_distance d known probe)) [])
            probe ≤ tol)
        → r.confidence = 0) := by
  have hcases := recognize_one_ok_cases d tol known names probe r hok
  by_cases hne : known = []
  · rcases hcases with ⟨h0, hname, -⟩ | ⟨-, hne2, -⟩
    · refine ⟨⟨by rw [h0], by rw [h0]; norm_num⟩, ?_, fun _ => h0⟩
      rintro ⟨hfalse, -⟩
      exact absurd hne hfalse
    · exact absurd hne hne2
  · have hlt : np_argmin (face_distance d known probe) < known.length := by
      rw [← face_distance_length d known probe]
      exact np_argmin_lt_length _ (by
        intro hnil
        have hl := face_distance_length d known probe
        rw [hnil] at hl
        exact hne (List.eq_nil_of_length_eq_zero hl.symm))
    have hcf := compare_faces_getD d tol known probe _ hlt
    have hd0 : 0 ≤ d (known.getD (np_argmin (face_distance d known probe)) [])
        probe := hd _ (getD_mem_of_lt known _ [] hlt)
    have hfd := face_distance_getD d known probe _ hlt
    rcases hcases with ⟨h0, hname, hor⟩ | ⟨hb, -, hconf⟩
    · rcases hor with h | hflag
      · exact absurd h hne
      · have hP : ¬ d (known.getD (np_argmin (face_distance d known probe)) [])
            probe ≤ tol := by
          rw [hcf] at hflag
          simpa using hflag
        refine ⟨⟨by rw [h0], by rw [h0]; norm_num⟩, ?_, fun _ => h0⟩
        rintro ⟨-, hPP⟩
        exact absurd hPP hP
    · have hP : d (known.getD (np_argmin (face_distance d known probe)) [])
          probe ≤ tol := by
        rw [hcf] at hb
        simpa using hb
      have hconf2 : r.confidence
          = 1 - d (known.getD (np_argmin (face_distance d known probe)) [])
              probe := by
        rw [hconf, hfd]
      refine ⟨⟨?_, ?_⟩, fun _ => hconf, ?_⟩
      · rw [hconf2]
        linarith [le_trans hP htol]
      · rw [hconf2]
        linarith
      · rintro (h | hPP)
        · exact absurd h hne
        · exact absurd hP hPP

/-- C5 (witness): the concrete accepted match of distance 1/2 yields
confidence 1/2, inside [0, 1]. -/
theorem confidence_in_unit_interval_witness :
    (∀ e ∈ ([[(0:ℚ)]] : List Emb), 0 ≤ qdist e [(1:ℚ)/2])
    ∧ ((3:ℚ)/5 ≤ 1)
    ∧ (0 ≤ (MatchResult.mk "alice" (1/2)).confidence
       ∧ (MatchResult.mk "alice" (1/2)).confidence ≤ 1) := by
  have hd : ∀ e ∈ ([[(0:ℚ)]] : List Emb), 0 ≤ qdist e [(1:ℚ)/2] := by
    intro e he
    simp at he
    subst he
    norm_num [qdist]
  have htol : (3:ℚ)/5 ≤ 1 := by norm_num
  have hok : recognize_one qdist (3/5) [[(0:ℚ)]] ["alice"] [(1:ℚ)/2]
      = .ok ⟨"alice", 1/2⟩ := by
    norm_num [recognize_one, compare_faces, face_distance, np_argmin, qdist]
  exact ⟨hd, htol, (confidence_in_unit_interval qdist (3/5) [[(0:ℚ)]]
    ["alice"] [(1:ℚ)/2] ⟨"alice", 1/2⟩ hd htol hok).1⟩

/-- C7: a successful recognition call on an aligned store appends to
the history exactly one record per detected face — unknown results
included — and nothing else; the number of appended records equals the
number of detected faces. -/
theorem history_record_per_face (d : Emb → Emb → ℚ) (tol : ℚ)
    (faces : List Face) (image : Image) (known : List Emb)
    (names : List String) (now : ℕ) (db : DB)
    (hlen : names.length = known.length) :
    (recognize_face d tol faces image known names now db).2.2
        = { db with recognition_history :=
              db.recognition_history ++ recordsOf d tol known names now faces }
    ∧ (recordsOf d tol known names now faces).length = faces.length := by
  constructor
  · simp [recognize_face, recognize_loop_ok d tol known names now faces hlen]
  · simp [recordsOf, resultsOf]

/-- C7 (witness): one detected face against a one-entry store appends
exactly one history record. -/
theorem history_record_per_face_witness :
    (["alice"] : List String).length = ([[(0:ℚ)]] : List Emb).length
    ∧ ((recognize_face qdist (3/5) [wFace] [] [[(0:ℚ)]] ["alice"] 0 wDB).2.2
        = { wDB with recognition_history := wDB.recognition_history
              ++ recordsOf qdist (3/5) [[(0:ℚ)]] ["alice"] 0 [wFace] }
       ∧ (recordsOf qdist (3/5) [[(0:ℚ)]] ["alice"] 0 [wFace]).length
          = [wFace].length) :=
  ⟨rfl, history_record_per_face qdist (3/5) [wFace] [] [[(0:ℚ)]] ["alice"]
    0 wDB rfl⟩

/-- C9: the matcher is a pure, deterministic function of the probe
faces, the store and the acceptance radius: the recognized names and
confidences (and any raised error) are identical across calls that
differ only in the image buffer, the wall clock, or the database state,
and the call never modifies the known-face store. -/
theorem matcher_deterministic_and_effect_free (d : Emb → Emb → ℚ)
    (tol : ℚ) (faces : List Face) (img1 img2 : Image) (known : List Emb)
    (names : List String) (now1 now2 : ℕ) (db1 db2 : DB) :
    matchOutcome (recognize_face d tol faces img1 known names now1 db1)
        = matchOutcome (recognize_face d tol faces img2 known names now2 db2)
    ∧ (recognize_face d tol faces img1 known names now1 db1).2.2.known_faces
        = db1.known_faces := by
  obtain ⟨h1, h2, h3, h4⟩ := recognize_loop_parts d tol known names now1 now2 faces
  constructor
  · simp only [recognize_face, matchOutcome]
    rw [← h1]
    cases he : (recognize_loop d tol known names now1 faces).1 with
    | some e => simp [he]
    | none => simp [he, h3, h4, Except.map]
  · simp only [recognize_face]
    cases he : (recognize_loop d tol known names now1 faces).1 with
    | some e => simp [he]
    | none => simp [he]

/-- C10: the history rows of one recognition call are committed in a
single transaction after the per-face loop; if the call raises partway
through the loop, the commit never runs and the persisted history (and
the whole database) is unchanged. -/
theorem history_all_or_nothing (d : Emb → Emb → ℚ) (tol : ℚ)
    (faces : List Face) (image : Image) (known : List Emb)
    (names : List String) (now : ℕ) (db : DB) (e : PyErr)
    (h : (recognize_face d tol faces image known names now db).1 = .error e) :
    (recognize_face d tol faces image known names now db).2.2 = db := by
  simp only [recognize_face] at h ⊢
  cases he : (recognize_loop d tol known names now faces).1 with
  | some e2 => simp [he]
  | none =>
      rw [he] at h
      simp at h

/-- C10 (witness): with a names sequence shorter than the encodings the
loop raises IndexError at the first face, and the database is exactly
the one before the call. -/
theorem history_all_or_nothing_witness :
    (recognize_face qdist (3/5) [wFace] [] [[(0:ℚ)]] [] 0 wDB).1
        = .error PyErr.indexError
    ∧ (recognize_face qdist (3/5) [wFace] [] [[(0:ℚ)]] [] 0 wDB).2.2 = wDB := by
  have h : (recognize_face qdist (3/5) [wFace] [] [[(0:ℚ)]] [] 0 wDB).1
      = .error PyErr.indexError := by
    norm_num [recognize_face, recognize_loop, recognize_one, compare_faces,
      face_distance, np_argmin, qdist, wFace, wDB]
  exact ⟨h, history_all_or_nothing qdist (3/5) [wFace] [] [[(0:ℚ)]] [] 0 wDB
    PyErr.indexError h⟩

end FaceApp
